import Mathlib

/-!
Verification of `Scripts/update-word-lists.py` (repository dkopec/solve-wordle).

The script is a single linear batch job: it backs up three word-list data
files, fetches remote word data (with retries), merges it with the existing
local files, writes the three files back (sorted, newline-joined, only on
change) and mirrors them into a secondary directory.

The embedding below models:
  * Python strings as `List Char` (`PyStr`), with hand-rolled versions of the
    exact string operations the script uses: `str.strip()`, `str.split('\n')`,
    `'\n'.join(...)`, `str.lower()`, `str.isalpha()`, `sorted(...)`;
  * Python sets of words as `Finset PyStr`;
  * the filesystem touched by the script as an explicit record `FS`
    (the three data files, the directory-existence bits, the backup copies,
    and the mirrored `wwwroot/data` copies);
  * the remote world as a record `Env` (the outcome of the NYTimes JSON
    fetch and of the fallback dictionary fetch, as observed by the script);
  * each method of `WordListUpdater` as a pure function on these records,
    keeping the source names.
-/

namespace UpdateWordLists

/-- Python strings, as their list of characters. -/
abbrev PyStr := List Char

/-- The ASCII whitespace characters stripped by Python's `str.strip()`
(space, tab, newline, carriage return, vertical tab, form feed). -/
def isPyWS (c : Char) : Bool :=
  c = ' ' || c = '\t' || c = '\n' || c = '\r' || c = '\x0b' || c = '\x0c'

/-- Python `s.strip()`: remove leading and trailing whitespace. -/
def pyStrip (s : PyStr) : PyStr :=
  ((s.dropWhile isPyWS).reverse.dropWhile isPyWS).reverse

/-- Python `s.split('\n')`: split on every newline; `''.split('\n') = ['']`,
and n newlines always yield n+1 (possibly empty) parts. -/
def pySplitNL : PyStr → List PyStr
  | [] => [[]]
  | c :: rest =>
    if c = '\n' then [] :: pySplitNL rest
    else
      match pySplitNL rest with
      | [] => [[c]]
      | l :: ls => (c :: l) :: ls

/-- Python `'\n'.join(xs)`. -/
def pyJoinNL : List PyStr → PyStr
  | [] => []
  | [w] => w
  | w :: x :: ws => w ++ '\n' :: pyJoinNL (x :: ws)

/-- Python `s.lower()` (ASCII case folding, as `Char.toLower`). -/
def pyLower (s : PyStr) : PyStr := s.map Char.toLower

/-- Python `s.isalpha()`: non-empty and all characters alphabetic. -/
def pyIsAlpha (s : PyStr) : Bool := !s.isEmpty && s.all Char.isAlpha

/-- The ascending sort of a multiset of words (code-point lexicographic,
exactly Python's `sorted` on strings); `insertionSort` only depends on the
multiset of elements, so it can sort a `Finset`'s underlying multiset. -/
def sortMS (m : Multiset PyStr) : List PyStr :=
  Quot.liftOn m (fun l => l.insertionSort (· ≤ ·)) fun _ _ h =>
    List.eq_of_perm_of_sorted
      ((List.perm_insertionSort _ _).trans (h.trans (List.perm_insertionSort _ _).symm))
      (List.sorted_insertionSort _ _) (List.sorted_insertionSort _ _)

/-- Python `sorted(words)` for a set of words. -/
def sortedWords (W : Finset PyStr) : List PyStr := sortMS W.val

/-- The file content the script computes for a word set:
`'\n'.join(sorted(words))` (line 190 of the source). -/
def fileContent (W : Finset PyStr) : PyStr := pyJoinNL (sortedWords W)

/-- `set(text.strip().split('\n'))`: how the script turns an existing file's
text into a word set (lines 102, 126, 162 of the source). -/
def readWords (text : PyStr) : Finset PyStr := (pySplitNL (pyStrip text)).toFinset

/-- Reading an optional file: a missing file contributes nothing. -/
def readWordsOpt : Option PyStr → Finset PyStr
  | some t => readWords t
  | none => ∅

/-- Which of the three data files a backup copy came from. -/
inductive DataFile
  | words
  | common
  | past
deriving DecidableEq, Repr

/-- The filesystem state the script can observe and mutate: existence of the
three directories it creates, the contents of the three data files in
`Data/`, the backup copies made so far, and the mirrored copies in
`wwwroot/data/`. -/
structure FS where
  dataDir : Bool
  backupDir : Bool
  wwwrootDir : Bool
  past : Option PyStr
  common : Option PyStr
  words : Option PyStr
  backups : List (DataFile × PyStr)
  wwwPast : Option PyStr
  wwwCommon : Option PyStr
  wwwWords : Option PyStr
deriving DecidableEq, Repr

/-- The remote world, as observed through the script's two fetches:
`pastSolutions = some sols` models a successful fetch of the NYTimes JSON
whose parsed body has a `'solutions'` key holding the list `sols`
(`none` models any request/JSON failure or a missing key, all of which leave
the answer set empty, lines 77-85); `scrabbleText = some t` models a
successful fetch of the fallback dictionary with raw response text `t`
(`none` models a failure of that fetch, caught at lines 143-144). -/
structure Env where
  pastSolutions : Option (List PyStr)
  scrabbleText : Option PyStr

/-- The retry loop of `fetch_url` (lines 49-66), instrumented: how many
attempts were made, which sleep durations were performed, and the final
result (`none` = the last exception was re-raised). The `oracle` gives the
outcome of the HTTP request on each attempt. -/
structure FetchTrace (ρ : Type) where
  attempts : Nat
  sleeps : List Nat
  result : Option ρ
deriving DecidableEq, Repr

/-- One step per loop iteration of `for attempt in range(3)`: on success
return the response; on failure sleep `2 ** attempt` if `attempt < 2`,
otherwise re-raise. -/
def fetchUrlGo {ρ : Type} (oracle : Nat → Option ρ) : List Nat → FetchTrace ρ → FetchTrace ρ
  | [], t => t
  | a :: rest, t =>
    match oracle a with
    | some r => { t with attempts := t.attempts + 1, result := some r }
    | none =>
      if a < 2 then
        fetchUrlGo oracle rest
          { t with attempts := t.attempts + 1, sleeps := t.sleeps ++ [2 ^ a] }
      else
        { t with attempts := t.attempts + 1, result := none }

/-- `WordListUpdater.fetch_url` (lines 49-66). -/
def fetch_url {ρ : Type} (oracle : Nat → Option ρ) : FetchTrace ρ :=
  fetchUrlGo oracle (List.range 3) ⟨0, [], none⟩

/-- The word set extracted from the JSON endpoint's `'solutions'` list
(line 82): `w.lower() for w in data['solutions'] if len(w) == 5`. -/
def jsonSolutionsSet (sols : List PyStr) : Finset PyStr :=
  ((sols.filter fun w => w.length = 5).map pyLower).toFinset

/-- What Method 1 of `fetch_past_wordle_answers` leaves in `past_answers`:
the filtered solutions on success, the empty set on any failure. -/
def jsonExtract (env : Env) : Finset PyStr :=
  match env.pastSolutions with
  | some sols => jsonSolutionsSet sols
  | none => ∅

/-- `WordListUpdater.fetch_past_wordle_answers` (lines 68-113).
Method 2 (the JS-bundle extraction) is a literal `pass` in the source and
contributes nothing. Method 3 runs when the set is still empty: it replaces
it with the existing file's words if the file exists (`known_recent` is the
empty dict literal `{}` at lines 107-110, so its `update` adds nothing). -/
def fetch_past_wordle_answers (env : Env) (pastFile : Option PyStr) : Finset PyStr :=
  let past_answers := jsonExtract env
  if past_answers = ∅ then readWordsOpt pastFile else past_answers

/-- The word set extracted from the fallback dictionary's text (lines
132-135): `word.lower() for word in response.text.split('\n') if
len(word) == 5 and word.isalpha()`. -/
def scrabbleSet (text : PyStr) : Finset PyStr :=
  (((pySplitNL text).filter fun w => w.length = 5 && pyIsAlpha w).map pyLower).toFinset

/-- `WordListUpdater.fetch_comprehensive_wordlist` (lines 115-146): seed
from the existing `words.txt` if present, then union in the filtered remote
dictionary words; a fetch failure is caught and leaves the seed alone. -/
def fetch_comprehensive_wordlist (env : Env) (wordsFile : Option PyStr) : Finset PyStr :=
  let all_words := readWordsOpt wordsFile
  match env.scrabbleText with
  | some text => all_words ∪ scrabbleSet text
  | none => all_words

/-- `WordListUpdater.determine_common_words` (lines 148-169): union the past
answers with the existing `common-words.txt` words, then intersect with the
comprehensive set. -/
def determine_common_words (commonFile : Option PyStr) (all_words past_answers : Finset PyStr) :
    Finset PyStr :=
  (past_answers ∪ readWordsOpt commonFile) ∩ all_words

/-- `WordListUpdater.backup_files` (lines 171-185): in dry-run, return
before doing anything; otherwise create `Data/backups` (and hence `Data`,
since `parents=True`) and copy each existing data file, in source order
`words.txt`, `common-words.txt`, `past-answers.txt`. -/
def backup_files (dry_run : Bool) (fs : FS) : FS :=
  if dry_run then fs
  else
    let b1 := match fs.words with | some t => [(DataFile.words, t)] | none => []
    let b2 := match fs.common with | some t => [(DataFile.common, t)] | none => []
    let b3 := match fs.past with | some t => [(DataFile.past, t)] | none => []
    { fs with dataDir := true, backupDir := true, backups := fs.backups ++ b1 ++ b2 ++ b3 }

/-- `WordListUpdater.write_word_file` (lines 187-209) on one file: compute
`'\n'.join(sorted(words))`, compare with the existing content stripped, and
on difference set `changes_made` and (unless dry-run) overwrite the file.
Returns the file's new state and the `changes_made` contribution. -/
def write_word_file (dry_run : Bool) (words : Finset PyStr) (existing : Option PyStr) :
    Option PyStr × Bool :=
  let content := fileContent words
  let existing_content := existing.getD []
  if content ≠ pyStrip existing_content then
    (if dry_run then existing else some content, true)
  else
    (existing, false)

/-- `WordListUpdater.sync_to_wwwroot` (lines 211-225): in dry-run, return
before doing anything; otherwise create `wwwroot/data` and overwrite each
mirror with the corresponding data file's content when that file exists. -/
def sync_to_wwwroot (dry_run : Bool) (fs : FS) : FS :=
  if dry_run then fs
  else
    { fs with
      wwwrootDir := true
      wwwWords := match fs.words with | some t => some t | none => fs.wwwWords
      wwwCommon := match fs.common with | some t => some t | none => fs.wwwCommon
      wwwPast := match fs.past with | some t => some t | none => fs.wwwPast }

/-- The value `run` returns after its `try`/`except` (lines 232-280): on a
body that completed with `changes_made`, both branches of the final `if`
return `0`; on an exception escaping the body, the handler logs it and
returns `1`. -/
def runReturn (outcome : Except String Bool) : Nat :=
  match outcome with
  | Except.ok changes_made => if changes_made then 0 else 0
  | Except.error _ => 1

/-- `WordListUpdater.run` (lines 227-280): backup, the three fetches, an
unconditional `DATA_DIR.mkdir(parents=True, exist_ok=True)` (line 242, not
guarded by `dry_run`), the three writes in source order `past-answers.txt`,
`common-words.txt`, `words.txt`, then the wwwroot sync. Returns the final
filesystem, `changes_made`, and the method's return value. -/
def run (env : Env) (dry_run : Bool) (fs : FS) : FS × Bool × Nat :=
  let fs1 := backup_files dry_run fs
  let past_answers := fetch_past_wordle_answers env fs1.past
  let all_words := fetch_comprehensive_wordlist env fs1.words
  let common_words := determine_common_words fs1.common all_words past_answers
  let fs2 := { fs1 with dataDir := true }
  let w1 := write_word_file dry_run past_answers fs2.past
  let fs3 := { fs2 with past := w1.1 }
  let w2 := write_word_file dry_run common_words fs3.common
  let fs4 := { fs3 with common := w2.1 }
  let w3 := write_word_file dry_run all_words fs4.words
  let fs5 := { fs4 with words := w3.1 }
  let fs6 := sync_to_wwwroot dry_run fs5
  let changes_made := w1.2 || w2.2 || w3.2
  (fs6, changes_made, runReturn (Except.ok changes_made))

/-- `main` (lines 283-296): `sys.exit(updater.run())`, so the process exit
status is exactly the value `run` returned. -/
def mainExit (runOutcome : Except String Bool) : Nat := runReturn runOutcome

/-- A word round-trips through a written file untouched: it is non-empty,
contains no newline, and neither starts nor ends with a whitespace
character. -/
def cleanWord (w : PyStr) : Prop :=
  w ≠ [] ∧ '\n' ∉ w ∧ isPyWS (w.headD 'a') = false ∧ isPyWS (w.getLastD 'a') = false

instance : DecidablePred cleanWord := fun w => by unfold cleanWord; infer_instance

/-- The past-answers set a run computes and passes to the writer
(line 237 of the source). -/
def pastSet (env : Env) (fs : FS) : Finset PyStr := fetch_past_wordle_answers env fs.past

/-- The comprehensive word set a run computes and passes to the writer
(line 238 of the source). -/
def allSet (env : Env) (fs : FS) : Finset PyStr := fetch_comprehensive_wordlist env fs.words

/-- The common-words set a run computes and passes to the writer
(line 239 of the source). -/
def commonSet (env : Env) (fs : FS) : Finset PyStr :=
  determine_common_words fs.common (allSet env fs) (pastSet env fs)

/-- The words stored in a file content: its non-empty lines (one word per
line; an empty line carries no word). -/
def fileWordSet (c : PyStr) : Finset PyStr := (pySplitNL c).toFinset \ {([] : PyStr)}

/-- A remote world where every fetch fails. -/
def noRemote : Env := ⟨none, none⟩

/-- A filesystem with no directories and no files. -/
def emptyFS : FS := ⟨false, false, false, none, none, none, [], none, none, none⟩

/-- A remote world and local state on which a run is reproducible: the JSON
endpoint serves one five-letter solution and the dictionary serves matching
clean words. -/
def witEnv : Env := ⟨some ["crane".data], some "crane\nslate".data⟩

def witFS : FS :=
  ⟨true, false, false, none, some "crane".data, some "crane\nslate".data, [], none, none, none⟩

/-- A words file holding a word with a leading space. -/
def wsFS : FS := ⟨true, false, false, none, none, some "b\n z".data, [], none, none, none⟩

/-! ### Lemmas on the string primitives -/

theorem pySplitNL_ne_nil (s : PyStr) : pySplitNL s ≠ [] := by
  induction s with
  | nil => simp [pySplitNL]
  | cons c rest ih =>
    rw [pySplitNL]
    split
    · simp
    · rcases h : pySplitNL rest with _ | ⟨l, ls⟩
      · exact absurd h ih
      · simp [h]

theorem mem_pySplitNL_no_newline (s : PyStr) : ∀ l ∈ pySplitNL s, '\n' ∉ l := by
  induction s with
  | nil => intro l hl; simp [pySplitNL] at hl; simp [hl]
  | cons c rest ih =>
    intro l hl
    rw [pySplitNL] at hl
    by_cases hc : c = '\n'
    · rw [if_pos hc] at hl
      rcases List.mem_cons.mp hl with hl | hl
      · simp [hl]
      · exact ih l hl
    · rw [if_neg hc] at hl
      rcases h : pySplitNL rest with _ | ⟨m, ms⟩
      · exact absurd h (pySplitNL_ne_nil rest)
      · rw [h] at hl
        rcases List.mem_cons.mp hl with hl | hl
        · subst hl
          intro hmem
          rcases List.mem_cons.mp hmem with h1 | h1
          · exact hc h1.symm
          · exact ih m (h ▸ List.mem_cons_self m ms) h1
        · exact ih l (h ▸ List.mem_cons_of_mem m hl)

theorem pySplitNL_no_newline {w : PyStr} (h : '\n' ∉ w) : pySplitNL w = [w] := by
  induction w with
  | nil => rfl
  | cons c rest ih =>
    have hc : c ≠ '\n' := fun hc => h (hc ▸ List.mem_cons_self c rest)
    have hr : '\n' ∉ rest := fun hm => h (List.mem_cons_of_mem c hm)
    rw [pySplitNL, if_neg hc, ih hr]

theorem pySplitNL_append_newline {w : PyStr} (t : PyStr) (h : '\n' ∉ w) :
    pySplitNL (w ++ '\n' :: t) = w :: pySplitNL t := by
  induction w with
  | nil => simp [pySplitNL]
  | cons c rest ih =>
    have hc : c ≠ '\n' := fun hc => h (hc ▸ List.mem_cons_self c rest)
    have hr : '\n' ∉ rest := fun hm => h (List.mem_cons_of_mem c hm)
    rw [List.cons_append, pySplitNL, if_neg hc, ih hr]

theorem pyJoinNL_cons_of_ne_nil (w : PyStr) {ws : List PyStr} (h : ws ≠ []) :
    pyJoinNL (w :: ws) = w ++ '\n' :: pyJoinNL ws := by
  rcases ws with _ | ⟨x, ws'⟩
  · exact absurd rfl h
  · rfl

theorem pySplitNL_pyJoinNL {xs : List PyStr} (hne : xs ≠ [])
    (hnl : ∀ x ∈ xs, '\n' ∉ x) : pySplitNL (pyJoinNL xs) = xs := by
  induction xs with
  | nil => exact absurd rfl hne
  | cons w ws ih =>
    rcases ws with _ | ⟨x, ws'⟩
    · exact pySplitNL_no_newline (hnl w (List.mem_cons_self w []))
    · rw [pyJoinNL_cons_of_ne_nil w (by simp)]
      rw [pySplitNL_append_newline _ (hnl w (List.mem_cons_self w _))]
      rw [ih (by simp) (fun x hx => hnl x (List.mem_cons_of_mem w hx))]

theorem dropWhile_ws_append {pre s : PyStr} (h : ∀ c ∈ pre, isPyWS c = true) :
    (pre ++ s).dropWhile isPyWS = s.dropWhile isPyWS := by
  induction pre with
  | nil => rfl
  | cons c rest ih =>
    rw [List.cons_append, List.dropWhile_cons, if_pos (h c (List.mem_cons_self c rest))]
    exact ih fun c hc => h c (List.mem_cons_of_mem _ hc)

theorem dropWhile_append_of_ne_nil {s : PyStr} (t : PyStr)
    (h : s.dropWhile isPyWS ≠ []) :
    (s ++ t).dropWhile isPyWS = s.dropWhile isPyWS ++ t := by
  induction s with
  | nil => exact absurd rfl h
  | cons c rest ih =>
    by_cases hc : isPyWS c = true
    · rw [List.dropWhile_cons, if_pos hc] at h
      rw [List.cons_append, List.dropWhile_cons, if_pos hc, List.dropWhile_cons, if_pos hc]
      exact ih h
    · rw [List.cons_append, List.dropWhile_cons, if_neg hc, List.dropWhile_cons, if_neg hc]
      simp

theorem pyStrip_eq_self {s : PyStr}
    (h1 : ∀ c ∈ s.head?, isPyWS c = false)
    (h2 : ∀ c ∈ s.getLast?, isPyWS c = false) : pyStrip s = s := by
  have hd : s.dropWhile isPyWS = s := by
    rcases s with _ | ⟨c, rest⟩
    · rfl
    · rw [List.dropWhile_cons, if_neg]
      simp only [List.head?_cons, Option.mem_some_iff] at h1
      simp [h1 c rfl]
  have hr : s.reverse.dropWhile isPyWS = s.reverse := by
    rcases hrev : s.reverse with _ | ⟨c, rest⟩
    · rfl
    · rw [List.dropWhile_cons, if_neg]
      have : s.reverse.head? = some c := by rw [hrev]; rfl
      rw [List.head?_reverse] at this
      simp [h2 c this]
  rw [pyStrip, hd, hr, List.reverse_reverse]

theorem pyStrip_append_ws {s post : PyStr} (h : ∀ c ∈ post, isPyWS c = true) :
    pyStrip (s ++ post) = pyStrip s := by
  by_cases hnil : s.dropWhile isPyWS = []
  · have hall : ∀ c ∈ s, isPyWS c = true := List.dropWhile_eq_nil_iff.mp hnil
    have hall2 : (s ++ post).dropWhile isPyWS = [] := by
      rw [List.dropWhile_eq_nil_iff]
      intro c hc
      rcases List.mem_append.mp hc with h' | h'
      · exact hall c h'
      · exact h c h'
    rw [pyStrip, pyStrip, hnil, hall2]
  · rw [pyStrip, pyStrip, dropWhile_append_of_ne_nil post hnil, List.reverse_append]
    rw [dropWhile_ws_append (by intro c hc; exact h c (List.mem_reverse.mp hc))]

theorem pyStrip_ws_append {pre s : PyStr} (h : ∀ c ∈ pre, isPyWS c = true) :
    pyStrip (pre ++ s) = pyStrip s := by
  rw [pyStrip, pyStrip, dropWhile_ws_append h]

theorem pyStrip_pad {pre post : PyStr} (s : PyStr)
    (h1 : ∀ c ∈ pre, isPyWS c = true) (h2 : ∀ c ∈ post, isPyWS c = true) :
    pyStrip (pre ++ s ++ post) = pyStrip s := by
  rw [List.append_assoc, pyStrip_ws_append h1, pyStrip_append_ws h2]

/-! ### Lemmas on `sortedWords` and `fileContent` -/

theorem mem_sortedWords {W : Finset PyStr} {w : PyStr} :
    w ∈ sortedWords W ↔ w ∈ W := by
  rcases W with ⟨m, nd⟩
  obtain ⟨l, rfl⟩ := Quotient.exists_rep m
  show w ∈ l.insertionSort (· ≤ ·) ↔ _
  rw [(List.perm_insertionSort _ l).mem_iff, Finset.mem_mk]
  exact Multiset.mem_coe.symm

theorem toFinset_sortedWords (W : Finset PyStr) : (sortedWords W).toFinset = W := by
  ext w
  rw [List.mem_toFinset, mem_sortedWords]

theorem sortedWords_ne_nil {W : Finset PyStr} (h : W.Nonempty) : sortedWords W ≠ [] := by
  intro hnil
  obtain ⟨w, hw⟩ := h
  have := mem_sortedWords.mpr hw
  rw [hnil] at this
  exact absurd this (List.not_mem_nil w)

theorem pyJoinNL_append_singleton {ys : List PyStr} (v : PyStr) (h : ys ≠ []) :
    pyJoinNL (ys ++ [v]) = pyJoinNL ys ++ '\n' :: v := by
  induction ys with
  | nil => exact absurd rfl h
  | cons w ws ih =>
    rcases ws with _ | ⟨x, ws'⟩
    · rfl
    · rw [List.cons_append, pyJoinNL_cons_of_ne_nil w (by simp),
        pyJoinNL_cons_of_ne_nil w (by simp), ih (by simp)]
      simp

theorem pyJoinNL_reverse (xs : List PyStr) :
    (pyJoinNL xs).reverse = pyJoinNL ((xs.map List.reverse).reverse) := by
  induction xs with
  | nil => rfl
  | cons w ws ih =>
    rcases ws with _ | ⟨x, ws'⟩
    · rfl
    · rw [pyJoinNL_cons_of_ne_nil w (by simp), List.map_cons, List.reverse_cons,
        pyJoinNL_append_singleton _ (by simp), ← ih]
      simp

theorem dropWhile_pyJoinNL {xs : List PyStr}
    (h : ∀ x ∈ xs, x ≠ [] ∧ isPyWS (x.headD 'a') = false) :
    (pyJoinNL xs).dropWhile isPyWS = pyJoinNL xs := by
  rcases xs with _ | ⟨w, ws⟩
  · rfl
  · obtain ⟨hne, hhd⟩ := h w (List.mem_cons_self w ws)
    rcases w with _ | ⟨c, w'⟩
    · exact absurd rfl hne
    · have hc : isPyWS c = false := by simpa using hhd
      rcases ws with _ | ⟨x, ws'⟩
      · show ((c :: w') : PyStr).dropWhile isPyWS = _
        rw [List.dropWhile_cons, if_neg (by simp [hc])]
        rfl
      · rw [pyJoinNL_cons_of_ne_nil _ (by simp), List.cons_append,
          List.dropWhile_cons, if_neg (by simp [hc])]

theorem headD_reverse (x : PyStr) (d : Char) : x.reverse.headD d = x.getLastD d := by
  rw [List.headD_eq_head?_getD, List.head?_reverse, List.getLastD_eq_getLast?]

theorem pyStrip_pyJoinNL {xs : List PyStr}
    (h : ∀ x ∈ xs, x ≠ [] ∧ isPyWS (x.headD 'a') = false ∧ isPyWS (x.getLastD 'a') = false) :
    pyStrip (pyJoinNL xs) = pyJoinNL xs := by
  have h1 : (pyJoinNL xs).dropWhile isPyWS = pyJoinNL xs :=
    dropWhile_pyJoinNL fun x hx => ⟨(h x hx).1, (h x hx).2.1⟩
  have h2 : (pyJoinNL xs).reverse.dropWhile isPyWS = (pyJoinNL xs).reverse := by
    rw [pyJoinNL_reverse]
    refine dropWhile_pyJoinNL ?_
    intro x hx
    rw [List.mem_reverse, List.mem_map] at hx
    obtain ⟨y, hy, rfl⟩ := hx
    obtain ⟨hyne, _, hyl⟩ := h y hy
    constructor
    · simpa using hyne
    · rw [headD_reverse]; exact hyl
  rw [pyStrip, h1, h2, List.reverse_reverse]

theorem pyStrip_fileContent {W : Finset PyStr} (hc : ∀ w ∈ W, cleanWord w) :
    pyStrip (fileContent W) = fileContent W := by
  refine pyStrip_pyJoinNL ?_
  intro x hx
  obtain ⟨h1, _, h3, h4⟩ := hc x (mem_sortedWords.mp hx)
  exact ⟨h1, h3, h4⟩

theorem fileContent_ne_nil {W : Finset PyStr} (hne : W.Nonempty)
    (h : ∀ w ∈ W, w ≠ []) : fileContent W ≠ [] := by
  rcases hs : sortedWords W with _ | ⟨w, ws⟩
  · exact absurd hs (sortedWords_ne_nil hne)
  · have hw : w ≠ [] := h w (mem_sortedWords.mp (hs ▸ List.mem_cons_self w ws))
    rcases ws with _ | ⟨x, ws'⟩
    · rw [fileContent, hs]; exact hw
    · rw [fileContent, hs, pyJoinNL_cons_of_ne_nil w (by simp)]
      simp [hw]

theorem toFinset_pySplitNL_fileContent {W : Finset PyStr} (hne : W.Nonempty)
    (hnl : ∀ w ∈ W, '\n' ∉ w) : (pySplitNL (fileContent W)).toFinset = W := by
  rw [fileContent, pySplitNL_pyJoinNL (sortedWords_ne_nil hne)
    (fun x hx => hnl x (mem_sortedWords.mp hx)), toFinset_sortedWords]

theorem readWords_of_strip_eq {t : PyStr} {W : Finset PyStr}
    (hne : W.Nonempty) (hnl : ∀ w ∈ W, '\n' ∉ w)
    (h : pyStrip t = fileContent W) : readWords t = W := by
  rw [readWords, h, toFinset_pySplitNL_fileContent hne hnl]

theorem readWords_fileContent {W : Finset PyStr} (hne : W.Nonempty)
    (hc : ∀ w ∈ W, cleanWord w) : readWords (fileContent W) = W :=
  readWords_of_strip_eq hne (fun w hw => (hc w hw).2.1) (pyStrip_fileContent hc)

theorem readWords_nonempty (t : PyStr) : (readWords t).Nonempty := by
  rcases h : pySplitNL (pyStrip t) with _ | ⟨l, ls⟩
  · exact absurd h (pySplitNL_ne_nil _)
  · exact ⟨l, by rw [readWords, h]; simp⟩

/-! ### Lemmas on `write_word_file` and `run` -/

theorem write_word_file_dry_fst (W : Finset PyStr) (ex : Option PyStr) :
    (write_word_file true W ex).1 = ex := by
  unfold write_word_file
  by_cases h : fileContent W = pyStrip (ex.getD []) <;> simp [h]

theorem write_word_file_stable (dry : Bool) (W : Finset PyStr) (t : PyStr)
    (h : pyStrip t = fileContent W) :
    write_word_file dry W (some t) = (some t, false) := by
  unfold write_word_file
  simp [h]

theorem write_word_file_changed_iff (dry : Bool) (W : Finset PyStr) (ex : Option PyStr) :
    (write_word_file dry W ex).2 = false ↔ fileContent W = pyStrip (ex.getD []) := by
  unfold write_word_file
  by_cases h : fileContent W = pyStrip (ex.getD []) <;> simp [h]

theorem write_word_file_unchanged (dry : Bool) (W : Finset PyStr) (ex : Option PyStr)
    (h : fileContent W = pyStrip (ex.getD [])) :
    write_word_file dry W ex = (ex, false) := by
  unfold write_word_file
  simp [h]

/-- After a non-dry write for a non-empty set of clean words, the file
exists and its content strips to the computed content (either it was just
written, or it was left alone because it already stripped to it). -/
theorem write_word_file_post {W : Finset PyStr} (ex : Option PyStr)
    (hne : W.Nonempty) (hc : ∀ w ∈ W, cleanWord w) :
    ∃ t, (write_word_file false W ex).1 = some t ∧ pyStrip t = fileContent W := by
  unfold write_word_file
  by_cases h : fileContent W = pyStrip (ex.getD [])
  · rcases ex with _ | t
    · exfalso
      refine fileContent_ne_nil hne (fun w hw => (hc w hw).1) ?_
      simpa using h
    · exact ⟨t, by simp [h], h.symm⟩
  · exact ⟨fileContent W, by simp [h], pyStrip_fileContent hc⟩

/-- The three data files after a non-dry run are exactly the results of the
three `write_word_file` calls on the fetched sets. -/
theorem run_false_past (env : Env) (fs : FS) :
    (run env false fs).1.past =
      (write_word_file false (fetch_past_wordle_answers env fs.past) fs.past).1 := rfl

theorem run_false_common (env : Env) (fs : FS) :
    (run env false fs).1.common =
      (write_word_file false
        (determine_common_words fs.common (fetch_comprehensive_wordlist env fs.words)
          (fetch_past_wordle_answers env fs.past)) fs.common).1 := rfl

theorem run_false_words (env : Env) (fs : FS) :
    (run env false fs).1.words =
      (write_word_file false (fetch_comprehensive_wordlist env fs.words) fs.words).1 := rfl

/-! ### Lemmas on characters and the remote filters -/

theorem char_toNat_ofNat {n : Nat} (h : n < 55296) : (Char.ofNat n).toNat = n := by
  unfold Char.ofNat
  rw [dif_pos (Or.inl h)]
  rfl

theorem toLower_toNat_of_upper {c : Char} (h : c.toNat ≥ 65 ∧ c.toNat ≤ 90) :
    c.toLower.toNat = c.toNat + 32 := by
  unfold Char.toLower
  rw [if_pos h]
  exact char_toNat_ofNat (by omega)

theorem toLower_eq_self {c : Char} (h : ¬(c.toNat ≥ 65 ∧ c.toNat ≤ 90)) :
    c.toLower = c := by
  unfold Char.toLower
  rw [if_neg h]

theorem toLower_toLower (c : Char) : c.toLower.toLower = c.toLower := by
  by_cases h : c.toNat ≥ 65 ∧ c.toNat ≤ 90
  · have h2 := toLower_toNat_of_upper h
    refine toLower_eq_self ?_
    omega
  · rw [toLower_eq_self h, toLower_eq_self h]

theorem isAlpha_toLower {c : Char} (h : c.isAlpha = true) : c.toLower.isAlpha = true := by
  have hiff : ∀ d : Char, d.isAlpha = true ↔
      ((65 ≤ d.toNat ∧ d.toNat ≤ 90) ∨ (97 ≤ d.toNat ∧ d.toNat ≤ 122)) := by
    intro d
    simp [Char.isAlpha, Char.isUpper, Char.isLower]
    exact Iff.rfl
  rw [hiff] at h
  rw [hiff]
  by_cases hu : c.toNat ≥ 65 ∧ c.toNat ≤ 90
  · have h2 := toLower_toNat_of_upper hu
    omega
  · rw [toLower_eq_self hu]
    exact h

theorem toLower_ne_newline {c : Char} (h : c ≠ '\n') : c.toLower ≠ '\n' := by
  by_cases hu : c.toNat ≥ 65 ∧ c.toNat ≤ 90
  · have h2 := toLower_toNat_of_upper hu
    intro heq
    rw [heq] at h2
    have : ('\n').toNat = 10 := rfl
    omega
  · rw [toLower_eq_self hu]
    exact h

theorem pyLower_pyLower (w : PyStr) : pyLower (pyLower w) = pyLower w := by
  simp [pyLower, List.map_map, Function.comp_def, toLower_toLower]

theorem pyIsAlpha_pyLower {w : PyStr} (h : pyIsAlpha w = true) : pyIsAlpha (pyLower w) = true := by
  unfold pyIsAlpha at *
  simp only [Bool.and_eq_true, List.all_eq_true] at *
  refine ⟨by simpa [pyLower] using h.1, ?_⟩
  intro c hc
  rw [pyLower, List.mem_map] at hc
  obtain ⟨d, hd, rfl⟩ := hc
  exact isAlpha_toLower (h.2 d hd)

theorem mem_jsonSolutionsSet {sols : List PyStr} {w : PyStr} (h : w ∈ jsonSolutionsSet sols) :
    ∃ v, v.length = 5 ∧ w = pyLower v := by
  rw [jsonSolutionsSet, List.mem_toFinset, List.mem_map] at h
  obtain ⟨v, hv, rfl⟩ := h
  exact ⟨v, (List.mem_filter.mp hv).2 |> of_decide_eq_true, rfl⟩

theorem mem_scrabbleSet {text : PyStr} {w : PyStr} (h : w ∈ scrabbleSet text) :
    ∃ v ∈ pySplitNL text, v.length = 5 ∧ pyIsAlpha v = true ∧ w = pyLower v := by
  rw [scrabbleSet, List.mem_toFinset, List.mem_map] at h
  obtain ⟨v, hv, rfl⟩ := h
  have h2 := (List.mem_filter.mp hv).2
  simp only [Bool.and_eq_true, decide_eq_true_eq] at h2
  exact ⟨v, (List.mem_filter.mp hv).1, h2.1, h2.2, rfl⟩

theorem mem_readWordsOpt_no_newline {o : Option PyStr} {w : PyStr}
    (h : w ∈ readWordsOpt o) : '\n' ∉ w := by
  rcases o with _ | t
  · simp [readWordsOpt] at h
  · exact mem_pySplitNL_no_newline _ w (List.mem_toFinset.mp h)

theorem pyLower_no_newline {v : PyStr} (h : '\n' ∉ v) : '\n' ∉ pyLower v := by
  intro hmem
  rw [pyLower, List.mem_map] at hmem
  obtain ⟨c, hc, hceq⟩ := hmem
  exact toLower_ne_newline (fun hc' => h (hc' ▸ hc)) hceq

theorem allSet_no_newline (env : Env) (fs : FS) : ∀ w ∈ allSet env fs, '\n' ∉ w := by
  intro w hw
  unfold allSet fetch_comprehensive_wordlist at hw
  rcases henv : env.scrabbleText with _ | text
  · rw [henv] at hw
    exact mem_readWordsOpt_no_newline hw
  · rw [henv] at hw
    rcases Finset.mem_union.mp hw with h | h
    · exact mem_readWordsOpt_no_newline h
    · obtain ⟨v, hv, _, _, rfl⟩ := mem_scrabbleSet h
      exact pyLower_no_newline (mem_pySplitNL_no_newline _ v hv)

theorem fileWordSet_fileContent {W : Finset PyStr} (hnl : ∀ w ∈ W, '\n' ∉ w) :
    fileWordSet (fileContent W) = W \ {([] : PyStr)} := by
  rcases W.eq_empty_or_nonempty with rfl | hne
  · decide
  · rw [fileWordSet, fileContent,
      pySplitNL_pyJoinNL (sortedWords_ne_nil hne) (fun x hx => hnl x (mem_sortedWords.mp hx)),
      toFinset_sortedWords]

theorem commonSet_subset_allSet (env : Env) (fs : FS) : commonSet env fs ⊆ allSet env fs :=
  Finset.inter_subset_right

theorem pastSet_inter_subset_commonSet (env : Env) (fs : FS) :
    pastSet env fs ∩ allSet env fs ⊆ commonSet env fs := by
  intro w hw
  have h1 := Finset.mem_inter.mp hw
  show w ∈ (pastSet env fs ∪ readWordsOpt fs.common) ∩ allSet env fs
  exact Finset.mem_inter.mpr ⟨Finset.mem_union_left _ h1.1, h1.2⟩

/-! ### The claims -/

/-- C1 (amended): with `dry_run = True` a run creates no backups, writes no
data files and syncs nothing to the secondary directory — the only
filesystem mutation is the unconditional `DATA_DIR.mkdir` of line 242,
which marks the primary data directory as existing. -/
theorem dry_run_only_mkdir (env : Env) (fs : FS) :
    (run env true fs).1 = { fs with dataDir := true } := by
  simp only [run, backup_files, sync_to_wwwroot, if_true, write_word_file_dry_fst]

/-- C1 (counterexample to the claim as stated): on an initially empty
filesystem, a dry run does mutate the filesystem — it creates the primary
data directory, so the claim's "no filesystem mutations whatsoever (this
includes not creating any directories)" is false. -/
theorem dry_run_mkdir_counterexample :
    emptyFS.dataDir = false ∧
    (run noRemote true emptyFS).1.dataDir = true ∧
    (run noRemote true emptyFS).1 ≠ emptyFS := by decide

/-- C2: for every remote world and local state, the common-words set a run
passes to the writer is a subset of the comprehensive set it passes to the
writer (`determine_common_words` ends with an intersection), and hence the
word set of the content written for the common-words file is a subset of
the word set of the content written for the comprehensive file. -/
theorem common_subset_comprehensive (env : Env) (fs : FS) :
    commonSet env fs ⊆ allSet env fs ∧
    fileWordSet (fileContent (commonSet env fs)) ⊆ fileWordSet (fileContent (allSet env fs)) := by
  have hsub : commonSet env fs ⊆ allSet env fs := commonSet_subset_allSet env fs
  refine ⟨hsub, ?_⟩
  have hA := allSet_no_newline env fs
  have hC : ∀ w ∈ commonSet env fs, '\n' ∉ w := fun w hw => hA w (hsub hw)
  rw [fileWordSet_fileContent hC, fileWordSet_fileContent hA]
  exact Finset.sdiff_subset_sdiff hsub (le_refl _)

/-- C3: `fetch_url` makes at most 3 attempts; a success on any attempt is
returned at once with no further attempts; after the first failure it
sleeps 1 unit, after the second 2 units, and a third failure is re-raised
(result `none`) with no sleep after it. -/
theorem fetch_url_retry_spec {ρ : Type} (oracle : Nat → Option ρ) :
    (fetch_url oracle).attempts ≤ 3 ∧
    (∀ r, oracle 0 = some r → fetch_url oracle = ⟨1, [], some r⟩) ∧
    (oracle 0 = none → ∀ r, oracle 1 = some r → fetch_url oracle = ⟨2, [1], some r⟩) ∧
    (oracle 0 = none → oracle 1 = none → ∀ r, oracle 2 = some r →
      fetch_url oracle = ⟨3, [1, 2], some r⟩) ∧
    (oracle 0 = none → oracle 1 = none → oracle 2 = none →
      fetch_url oracle = ⟨3, [1, 2], none⟩) := by
  have hrange : List.range 3 = [0, 1, 2] := rfl
  rcases h0 : oracle 0 with _ | r0 <;> rcases h1 : oracle 1 with _ | r1 <;>
    rcases h2 : oracle 2 with _ | r2 <;>
      simp [fetch_url, hrange, fetchUrlGo, h0, h1, h2]

/-- C3 (witness): the all-fail oracle raises after 3 attempts with sleeps
1 and 2; an oracle succeeding on the second attempt stops after 2 attempts
with one sleep of 1. -/
theorem fetch_url_retry_witness :
    ((fetch_url (fun _ => (none : Option Nat))).attempts ≤ 3 ∧
      fetch_url (fun _ => (none : Option Nat)) = ⟨3, [1, 2], none⟩) ∧
    fetch_url (fun n => if n = 1 then some 7 else none) = ⟨2, [1], some 7⟩ :=
  ⟨⟨(fetch_url_retry_spec _).1, (fetch_url_retry_spec _).2.2.2.2 rfl rfl rfl⟩,
    (fetch_url_retry_spec _).2.2.1 rfl 7 rfl⟩

/-- C4: when both remote extraction paths yield nothing, an existing local
past-answers file makes `fetch_past_wordle_answers` return a non-empty set;
the file containing exactly `apple` and `beach` yields exactly that set;
and an empty result can only arise with no remote data and no local file. -/
theorem fetch_past_fallback_spec (env : Env) (p : Option PyStr) :
    (jsonExtract env = ∅ → ∀ t, p = some t → fetch_past_wordle_answers env p ≠ ∅) ∧
    (jsonExtract env = ∅ → p = some "apple\nbeach".data →
      fetch_past_wordle_answers env p = {"apple".data, "beach".data}) ∧
    (fetch_past_wordle_answers env p = ∅ → jsonExtract env = ∅ ∧ p = none) := by
  refine ⟨?_, ?_, ?_⟩
  · intro hj t hp
    unfold fetch_past_wordle_answers
    rw [hj, if_pos rfl, hp]
    exact (readWords_nonempty t).ne_empty
  · intro hj hp
    unfold fetch_past_wordle_answers
    rw [hj, if_pos rfl, hp]
    decide
  · intro hempty
    unfold fetch_past_wordle_answers at hempty
    by_cases hj : jsonExtract env = ∅
    · rw [hj, if_pos rfl] at hempty
      refine ⟨hj, ?_⟩
      rcases p with _ | t
      · rfl
      · exact absurd hempty (readWords_nonempty t).ne_empty
    · rw [if_neg hj] at hempty
      exact absurd hempty hj

/-- C4 (witness): with all fetches failing and the file holding
`apple`/`beach`, the fallback returns exactly that non-empty set. -/
theorem fetch_past_fallback_witness :
    (jsonExtract noRemote = ∅ ∧
      fetch_past_wordle_answers noRemote (some "apple\nbeach".data) ≠ ∅) ∧
    fetch_past_wordle_answers noRemote (some "apple\nbeach".data) =
      {"apple".data, "beach".data} :=
  ⟨⟨by decide, (fetch_past_fallback_spec noRemote _).1 (by decide) _ rfl⟩,
    (fetch_past_fallback_spec noRemote _).2.1 (by decide) rfl⟩

/-- C5 (amended): `write_word_file` is a no-op on file content when the
computed sorted newline-joined content equals the existing content
stripped; and a second run with the same remote outcomes leaves the three
data files byte-for-byte unchanged, provided the three sets the first run
computes are non-empty and all their words are clean (non-empty, no
newline, no leading or trailing whitespace). Without the cleanliness
proviso the second run can rewrite a file (see the counterexample). -/
theorem run_idempotent_clean (env : Env) (fs : FS)
    (hP : (pastSet env fs).Nonempty) (hPc : ∀ w ∈ pastSet env fs, cleanWord w)
    (hA : (allSet env fs).Nonempty) (hAc : ∀ w ∈ allSet env fs, cleanWord w)
    (hC : (commonSet env fs).Nonempty) :
    (∀ (dry_run : Bool) (W : Finset PyStr) (ex : Option PyStr),
      fileContent W = pyStrip (ex.getD []) → write_word_file dry_run W ex = (ex, false)) ∧
    (run env false (run env false fs).1).1.past = (run env false fs).1.past ∧
    (run env false (run env false fs).1).1.common = (run env false fs).1.common ∧
    (run env false (run env false fs).1).1.words = (run env false fs).1.words := by
  have hCc : ∀ w ∈ commonSet env fs, cleanWord w :=
    fun w hw => hAc w (commonSet_subset_allSet env fs hw)
  obtain ⟨tp, htp1, htp2⟩ := write_word_file_post (W := pastSet env fs) fs.past hP hPc
  obtain ⟨tw, htw1, htw2⟩ := write_word_file_post (W := allSet env fs) fs.words hA hAc
  obtain ⟨tc, htc1, htc2⟩ := write_word_file_post (W := commonSet env fs) fs.common hC hCc
  have hp : (run env false fs).1.past = some tp := (run_false_past env fs).trans htp1
  have hw : (run env false fs).1.words = some tw := (run_false_words env fs).trans htw1
  have hc : (run env false fs).1.common = some tc := (run_false_common env fs).trans htc1
  have hreadp : readWords tp = pastSet env fs :=
    readWords_of_strip_eq hP (fun w hw => (hPc w hw).2.1) htp2
  have hreadw : readWords tw = allSet env fs :=
    readWords_of_strip_eq hA (fun w hw => (hAc w hw).2.1) htw2
  have hreadc : readWords tc = commonSet env fs :=
    readWords_of_strip_eq hC (fun w hw => (hCc w hw).2.1) htc2
  have hp2run : pastSet env (run env false fs).1 = pastSet env fs := by
    show fetch_past_wordle_answers env (run env false fs).1.past = pastSet env fs
    rw [hp]
    unfold fetch_past_wordle_answers
    by_cases hj : jsonExtract env = ∅
    · rw [hj, if_pos rfl]
      exact hreadp
    · rw [if_neg hj]
      show jsonExtract env = if jsonExtract env = ∅ then readWordsOpt fs.past else jsonExtract env
      rw [if_neg hj]
  have ha2run : allSet env (run env false fs).1 = allSet env fs := by
    show fetch_comprehensive_wordlist env (run env false fs).1.words = allSet env fs
    rw [hw]
    unfold fetch_comprehensive_wordlist
    rcases henv : env.scrabbleText with _ | text
    · exact hreadw
    · show readWordsOpt (some tw) ∪ scrabbleSet text = allSet env fs
      have hbase : readWordsOpt (some tw) = allSet env fs := hreadw
      rw [hbase, Finset.union_eq_left]
      intro w hww
      show w ∈ fetch_comprehensive_wordlist env fs.words
      unfold fetch_comprehensive_wordlist
      rw [henv]
      exact Finset.mem_union_right _ hww
  have hc2run : commonSet env (run env false fs).1 = commonSet env fs := by
    show (pastSet env (run env false fs).1 ∪ readWordsOpt (run env false fs).1.common) ∩
        allSet env (run env false fs).1 = commonSet env fs
    rw [hp2run, ha2run, hc]
    have htcr : readWordsOpt (some tc) = commonSet env fs := hreadc
    rw [htcr, Finset.union_inter_distrib_right,
      Finset.inter_eq_left.mpr (commonSet_subset_allSet env fs)]
    exact Finset.union_eq_right.mpr (pastSet_inter_subset_commonSet env fs)
  refine ⟨write_word_file_unchanged, ?_, ?_, ?_⟩
  · rw [run_false_past env (run env false fs).1, hp]
    have : fetch_past_wordle_answers env (run env false fs).1.past = pastSet env fs := hp2run
    rw [hp] at this
    rw [this, write_word_file_stable false _ tp htp2]
  · rw [run_false_common env (run env false fs).1, hc]
    have h2 : determine_common_words (some tc)
        (fetch_comprehensive_wordlist env (run env false fs).1.words)
        (fetch_past_wordle_answers env (run env false fs).1.past) = commonSet env fs := by
      show (pastSet env (run env false fs).1 ∪ readWordsOpt (some tc)) ∩
          allSet env (run env false fs).1 = commonSet env fs
      rw [← hc]
      exact hc2run
    rw [h2, write_word_file_stable false _ tc htc2]
  · rw [run_false_words env (run env false fs).1, hw]
    have h3 : fetch_comprehensive_wordlist env (run env false fs).1.words = allSet env fs := ha2run
    rw [hw] at h3
    rw [h3, write_word_file_stable false _ tw htw2]

/-- C5 (witness): a concrete clean state on which the second run leaves the
three data files unchanged. -/
theorem run_idempotent_witness :
    ((pastSet witEnv witFS).Nonempty ∧ (∀ w ∈ pastSet witEnv witFS, cleanWord w) ∧
      (allSet witEnv witFS).Nonempty ∧ (∀ w ∈ allSet witEnv witFS, cleanWord w) ∧
      (commonSet witEnv witFS).Nonempty) ∧
    (run witEnv false (run witEnv false witFS).1).1.past = (run witEnv false witFS).1.past ∧
    (run witEnv false (run witEnv false witFS).1).1.common = (run witEnv false witFS).1.common ∧
    (run witEnv false (run witEnv false witFS).1).1.words = (run witEnv false witFS).1.words :=
  ⟨⟨by decide, by decide, by decide, by decide, by decide⟩,
    (run_idempotent_clean witEnv witFS (by decide) (by decide) (by decide) (by decide)
      (by decide)).2⟩

/-- C5 (counterexample to the claim as stated): with all fetches failing
and `words.txt` holding a word with a leading space, the first run writes
the file and the second run rewrites it to different bytes, so running
twice with identical remote data does not leave the files unchanged. -/
theorem run_second_run_counterexample :
    (run noRemote false wsFS).1.words = some " z\nb".data ∧
    (run noRemote false (run noRemote false wsFS).1).1.words = some "b\nz".data ∧
    (run noRemote false (run noRemote false wsFS).1).1.words ≠
      (run noRemote false wsFS).1.words := by decide

/-- C6: the run's return value (and hence the process exit status, since
`main` calls `sys.exit(updater.run())`) is 0 on a body that completes,
whether or not changes were made, and 1 on a body that raises — the
exception being caught by the handler rather than propagating; the modelled
run body always completes and returns 0. -/
theorem exit_code_spec :
    (∀ changes_made : Bool, runReturn (Except.ok changes_made) = 0) ∧
    (∀ e : String, runReturn (Except.error e) = 1) ∧
    (∀ outcome : Except String Bool, mainExit outcome = runReturn outcome) ∧
    (∀ (env : Env) (dry_run : Bool) (fs : FS), (run env dry_run fs).2.2 = 0) := by
  have hok : ∀ b : Bool, runReturn (Except.ok b) = 0 := by intro b; cases b <;> rfl
  exact ⟨hok, fun e => rfl, fun o => rfl, fun env dry fs => hok _⟩

/-- C7: when the remote dictionary fetch fails, `fetch_comprehensive_wordlist`
returns exactly the seed read from the local words file (the empty set when
that file is missing) without raising, and the run still completes with
return value 0. -/
theorem comprehensive_fetch_failure_fallback (env : Env) (wordsFile : Option PyStr)
    (h : env.scrabbleText = none) :
    fetch_comprehensive_wordlist env wordsFile = readWordsOpt wordsFile ∧
    readWordsOpt (none : Option PyStr) = (∅ : Finset PyStr) ∧
    (∀ (dry_run : Bool) (fs : FS), (run env dry_run fs).2.2 = 0) := by
  have hok : ∀ b : Bool, runReturn (Except.ok b) = 0 := by intro b; cases b <;> rfl
  refine ⟨?_, rfl, fun dry fs => hok _⟩
  unfold fetch_comprehensive_wordlist
  rw [h]

/-- C7 (witness): with the dictionary fetch failing, the resolver returns
the local seed. -/
theorem comprehensive_fallback_witness :
    noRemote.scrabbleText = none ∧
    fetch_comprehensive_wordlist noRemote (some "crane\nslate".data) =
      readWordsOpt (some "crane\nslate".data) :=
  ⟨rfl, (comprehensive_fetch_failure_fallback noRemote (some "crane\nslate".data) rfl).1⟩

/-- C8: every word entering a word set from a filtered remote source is
exactly 5 characters and lowercase (applying `lower` again changes
nothing); the dictionary path additionally keeps only purely alphabetic
entries; and words from existing local files are not subject to this
filter (witness: a 3-letter word read from a local file). -/
theorem remote_words_lowercase_five :
    (∀ (sols : List PyStr), ∀ w ∈ jsonSolutionsSet sols, w.length = 5 ∧ pyLower w = w) ∧
    (∀ (text : PyStr), ∀ w ∈ scrabbleSet text,
      w.length = 5 ∧ pyLower w = w ∧ pyIsAlpha w = true) ∧
    ("abc".data ∈ readWords "abc".data ∧ ("abc".data).length ≠ 5) := by
  refine ⟨?_, ?_, by decide⟩
  · intro sols w hw
    obtain ⟨v, hv5, rfl⟩ := mem_jsonSolutionsSet hw
    exact ⟨by simpa [pyLower] using hv5, pyLower_pyLower v⟩
  · intro text w hw
    obtain ⟨v, _, hv5, hva, rfl⟩ := mem_scrabbleSet hw
    exact ⟨by simpa [pyLower] using hv5, pyLower_pyLower v, pyIsAlpha_pyLower hva⟩

/-- C8 (witness): a five-letter uppercase solution enters the set
lowercased; so does a dictionary entry, which is also alphabetic. -/
theorem remote_words_witness :
    ("abcde".data ∈ jsonSolutionsSet ["ABCDE".data, "toolong".data]) ∧
    (("abcde".data).length = 5 ∧ pyLower "abcde".data = "abcde".data) ∧
    ("crane".data ∈ scrabbleSet "CRANE\nxy\nno".data) ∧
    (("crane".data).length = 5 ∧ pyLower "crane".data = "crane".data ∧
      pyIsAlpha "crane".data = true) :=
  ⟨by decide,
    remote_words_lowercase_five.1 ["ABCDE".data, "toolong".data] "abcde".data (by decide),
    by decide,
    remote_words_lowercase_five.2.1 "CRANE\nxy\nno".data "crane".data (by decide)⟩

/-- C9: when the remote paths yield nothing and the local past-answers file
exists with empty or whitespace-only content, the resolver returns the
singleton set holding the empty string, and the writer treats that empty
string as a word: it appears in the sorted word list and the joined
content. -/
theorem empty_file_singleton_empty_word (env : Env) (t : PyStr)
    (hj : jsonExtract env = ∅) (hs : pyStrip t = []) :
    fetch_past_wordle_answers env (some t) = {([] : PyStr)} ∧
    sortedWords {([] : PyStr)} = [[]] ∧
    fileContent {([] : PyStr)} = [] ∧
    write_word_file false {([] : PyStr)} (some "x".data) = (some [], true) := by
  refine ⟨?_, by decide, by decide, by decide⟩
  unfold fetch_past_wordle_answers
  rw [hj, if_pos rfl]
  show readWords t = _
  rw [readWords, hs]
  decide

/-- C9 (witness): a whitespace-only file yields the singleton set with the
empty string. -/
theorem empty_file_singleton_witness :
    (jsonExtract noRemote = ∅ ∧ pyStrip "  \n ".data = []) ∧
    fetch_past_wordle_answers noRemote (some "  \n ".data) = {([] : PyStr)} :=
  ⟨⟨by decide, by decide⟩,
    (empty_file_singleton_empty_word noRemote "  \n ".data (by decide) (by decide)).1⟩

/-- C10 (amended): `write_word_file` computes the sorted newline-joined
content with no separator after the last word, and its change test strips
the existing content; a file is unchanged exactly when its stripped content
equals the computed content, so a file differing from the computed content
only by surrounding whitespace is left alone provided the computed content
itself has no leading or trailing whitespace — without that proviso the
file can be rewritten (see the counterexample). -/
theorem write_change_test_spec :
    (∀ (dry_run : Bool) (W : Finset PyStr) (ex : Option PyStr),
      (write_word_file dry_run W ex).2 = false ↔ fileContent W = pyStrip (ex.getD [])) ∧
    (∀ (dry_run : Bool) (W : Finset PyStr) (ex : Option PyStr),
      fileContent W = pyStrip (ex.getD []) → write_word_file dry_run W ex = (ex, false)) ∧
    (∀ (dry_run : Bool) (W : Finset PyStr) (pre post : PyStr),
      (∀ c ∈ pre, isPyWS c = true) → (∀ c ∈ post, isPyWS c = true) →
      pyStrip (fileContent W) = fileContent W →
      write_word_file dry_run W (some (pre ++ fileContent W ++ post)) =
        (some (pre ++ fileContent W ++ post), false)) := by
  refine ⟨write_word_file_changed_iff, write_word_file_unchanged, ?_⟩
  intro dry W pre post h1 h2 h3
  refine write_word_file_unchanged dry W _ ?_
  show fileContent W = pyStrip (pre ++ fileContent W ++ post)
  rw [pyStrip_pad _ h1 h2, h3]

/-- C10 (witness): a file holding the computed content for the word `abcde`
plus a trailing newline is reported unchanged and not rewritten. -/
theorem write_change_test_witness :
    ((∀ c ∈ ("" : String).data, isPyWS c = true) ∧ (∀ c ∈ "\n".data, isPyWS c = true) ∧
      pyStrip (fileContent {"abcde".data}) = fileContent {"abcde".data}) ∧
    write_word_file false {"abcde".data}
        (some ("".data ++ fileContent {"abcde".data} ++ "\n".data)) =
      (some ("".data ++ fileContent {"abcde".data} ++ "\n".data), false) :=
  ⟨⟨by decide, by decide, by decide⟩,
    write_change_test_spec.2.2 false {"abcde".data} "".data "\n".data
      (by decide) (by decide) (by decide)⟩

/-- C10 (counterexample to the claim as stated): for the word set holding
the single word `" z"` (leading space), an existing file equal to the
computed content plus only a trailing newline is reported as changed and
rewritten. -/
theorem write_trailing_newline_counterexample :
    " z\n".data = fileContent {" z".data} ++ ['\n'] ∧
    (write_word_file false {" z".data} (some " z\n".data)).2 = true ∧
    (write_word_file false {" z".data} (some " z\n".data)).1 = some (fileContent {" z".data}) ∧
    some (fileContent {" z".data}) ≠ some " z\n".data := by decide

end UpdateWordLists
